import Mathlib

/-!
Verification of the GPflow likelihood layer (gpflow/likelihoods.py) against its
natural-language specification.

The tensor operations in the source are elementwise over batch tensors, so the
embedding works at the scalar (per-entry) or per-row level.  External
tensor-framework primitives (erf, Gauss-Hermite node tables) are modelled as
explicit parameters; transcendental functions are Mathlib's real functions.
The log-density primitives (gpflow/logdensities.py) and the quadrature engine
(gpflow/quadrature.py) are collaborators of this file that are not part of the
sources under review; they are modelled from the spec where needed, and marked
as such.
-/

open scoped BigOperators

/-! ## External primitives and modelled collaborators -/

/-- Modelled from the spec: logdensities.gaussian, a given pure log-density
primitive; the closed-form log-density of a normal distribution
N(x; mu, var). -/
noncomputable def logdensities.gaussian (x mu var : ℝ) : ℝ :=
  -0.5 * (Real.log (2 * Real.pi) + Real.log var + (mu - x) ^ 2 / var)

/-- Modelled from the spec: logdensities.poisson, a given pure log-mass
primitive for the Poisson distribution with rate lam. -/
noncomputable def logdensities.poisson (y lam : ℝ) : ℝ :=
  y * Real.log lam - lam - Real.log (Real.Gamma (y + 1))

/-- Modelled from the spec: logdensities.bernoulli, a given pure log-mass
primitive for the Bernoulli distribution with success probability p. -/
noncomputable def logdensities.bernoulli (y p : ℝ) : ℝ :=
  Real.log (if y = 1 then p else 1 - p)

/-- Modelled from the spec: the Gauss-Hermite quadrature engine ndiagquad
(gpflow/quadrature.py, a collaborator outside the reviewed sources) at the
scalar level.  The grid gh is the list of (abscissa, weight) pairs produced by
hermgauss; each marginal transform is f = Fmu + sqrt(2 Fvar) * x, weighted by
w / sqrt(pi). -/
noncomputable def ndiagquad1 (f : ℝ → ℝ) (gh : List (ℝ × ℝ)) (Fmu Fvar : ℝ) : ℝ :=
  (gh.map (fun p => p.2 / Real.sqrt Real.pi *
    f (Fmu + Real.sqrt (2 * Fvar) * p.1))).sum

/-! ## Source: inv_probit and the inverse-link dispatch

The source dispatches on the identity of the inverse-link function object
(invlink is tf.exp, invlink is inv_probit).  An inverse link is therefore
embedded as a tagged value: the distinguished exp object, the distinguished
inv_probit object, or any other callable. -/

/-- Source likelihoods.py line 360: inv_probit, with its 1e-3 jitter bounding
the output away from 0 and 1.  The erf primitive of the tensor framework is an
explicit parameter. -/
noncomputable def inv_probit (erf : ℝ → ℝ) (x : ℝ) : ℝ :=
  0.5 * (1.0 + erf (x / Real.sqrt 2.0)) * (1 - 2 * (1e-3 : ℝ)) + (1e-3 : ℝ)

/-- An inverse-link value: the source distinguishes the function objects
tf.exp and inv_probit by identity, every other callable is generic. -/
inductive InvLink where
  | exp
  | probit
  | custom (f : ℝ → ℝ)

/-- Evaluation of an inverse link at a latent value. -/
noncomputable def InvLink.apply (erf : ℝ → ℝ) : InvLink → ℝ → ℝ
  | .exp => Real.exp
  | .probit => inv_probit erf
  | .custom f => f

/-! ## Source: generic operations of the Likelihood base class -/

/-- Source Likelihood.predict_mean_and_var (lines 77-108): two simultaneous
quadrature integrands, conditional_mean and conditional_variance +
conditional_mean squared; variance is the second moment minus the squared
mean. -/
noncomputable def Likelihood.predict_mean_and_var (cmean cvar : ℝ → ℝ)
    (gh : List (ℝ × ℝ)) (Fmu Fvar : ℝ) : ℝ × ℝ :=
  (ndiagquad1 cmean gh Fmu Fvar,
   ndiagquad1 (fun f => cvar f + (cmean f) ^ 2) gh Fmu Fvar
     - (ndiagquad1 cmean gh Fmu Fvar) ^ 2)

/-- Source Likelihood.variational_expectations (lines 135-159): quadrature of
logp in linear space. -/
noncomputable def Likelihood.variational_expectations (logp : ℝ → ℝ → ℝ)
    (gh : List (ℝ × ℝ)) (Fmu Fvar Y : ℝ) : ℝ :=
  ndiagquad1 (fun f => logp f Y) gh Fmu Fvar

/-! ## Source: Gaussian likelihood (lines 199-238) -/

/-- Source Gaussian.logp. -/
noncomputable def Gaussian.logp (variance F Y : ℝ) : ℝ :=
  logdensities.gaussian Y F variance

/-- Source Gaussian.conditional_variance: tf.fill with the variance parameter,
per entry a constant. -/
def Gaussian.conditional_variance (variance _F : ℝ) : ℝ := variance

/-- Source Gaussian.predict_mean_and_var: closed form, variance adds sigma2. -/
def Gaussian.predict_mean_and_var (variance Fmu Fvar : ℝ) : ℝ × ℝ :=
  (Fmu, Fvar + variance)

/-- Source Gaussian.predict_density (lines 231-233): the gaussian log-density
primitive applied at mean Fmu and variance Fvar + sigma2. -/
noncomputable def Gaussian.predict_density (variance Fmu Fvar Y : ℝ) : ℝ :=
  logdensities.gaussian Y Fmu (Fvar + variance)

/-- Source Gaussian.variational_expectations (lines 236-238). -/
noncomputable def Gaussian.variational_expectations (variance Fmu Fvar Y : ℝ) : ℝ :=
  -0.5 * Real.log (2 * Real.pi) - 0.5 * Real.log variance
    - 0.5 * ((Y - Fmu) ^ 2 + Fvar) / variance

/-! ## Source: RobustMax inverse link (lines 512-539) -/

/-- Index of the first maximal entry of a row, as computed by the tf.argmax
primitive (ties resolved to the smallest index). -/
noncomputable def argmaxIdx (l : List ℝ) : ℕ :=
  (List.range l.length).foldl
    (fun best j => if l.getD best 0 < l.getD j 0 then j else best) 0

/-- The tf.one_hot primitive: a length-K row with value on at position i and
off elsewhere. -/
def oneHot (K i : ℕ) (vOn vOff : ℝ) : List ℝ :=
  (List.range K).map (fun j => if j = i then vOn else vOff)

/-- Source RobustMax._eps_K1 (lines 536-539). -/
noncomputable def RobustMax.eps_K1 (epsilon : ℝ) (num_classes : ℕ) : ℝ :=
  epsilon / ((num_classes : ℝ) - 1)

/-- Source RobustMax call (lines 531-534): one-hot on the row argmax with
value 1 - epsilon, all other entries eps_K1. -/
noncomputable def RobustMax.call (epsilon : ℝ) (num_classes : ℕ)
    (F : List ℝ) : List ℝ :=
  oneHot num_classes (argmaxIdx F) (1 - epsilon) (RobustMax.eps_K1 epsilon num_classes)

/-! ## Helper lemmas -/

lemma argmax_foldl_lt (l : List ℝ) (n : ℕ) (js : List ℕ) (b : ℕ) (hb : b < n)
    (hjs : ∀ j ∈ js, j < n) :
    js.foldl (fun best j => if l.getD best 0 < l.getD j 0 then j else best) b < n := by
  induction js generalizing b with
  | nil => exact hb
  | cons j t ih =>
      simp only [List.foldl_cons]
      apply ih
      · split
        · exact hjs j (List.mem_cons_self _ _)
        · exact hb
      · intro x hx
        exact hjs x (List.mem_cons_of_mem _ hx)

lemma argmaxIdx_lt (l : List ℝ) (h : 0 < l.length) : argmaxIdx l < l.length :=
  argmax_foldl_lt l l.length (List.range l.length) 0 h
    (fun _ hj => List.mem_range.mp hj)

lemma sum_map_range (f : ℕ → ℝ) (n : ℕ) :
    ((List.range n).map f).sum = ∑ j ∈ Finset.range n, f j := by
  induction n with
  | zero => simp
  | succ m ih => simp [List.range_succ, Finset.sum_range_succ, ih]

/-! ## Claim theorems: C2, C3 -/

/-- C2: for every Fmu, Fvar and Y, Gaussian.predict_density(Fmu, Fvar, Y)
equals the closed-form Gaussian log-density of Y under mean Fmu and variance
Fvar + sigma2, exactly (the log of the normal pdf, not a quadrature
approximation). -/
theorem gaussian_predict_density_closed_form (variance Fmu Fvar Y : ℝ)
    (h : 0 < Fvar + variance) :
    Gaussian.predict_density variance Fmu Fvar Y
      = Real.log (ProbabilityTheory.gaussianPDFReal Fmu ⟨Fvar + variance, h.le⟩ Y) := by
  unfold Gaussian.predict_density logdensities.gaussian ProbabilityTheory.gaussianPDFReal
  rw [NNReal.coe_mk]
  rw [Real.log_mul (by positivity) (Real.exp_ne_zero _), Real.log_inv, Real.log_exp,
    Real.log_sqrt (by positivity), Real.log_mul (by positivity) (ne_of_gt h)]
  have hv : Fvar + variance ≠ 0 := ne_of_gt h
  field_simp
  ring

/-- Witness for C2 at variance = 1, Fmu = 0, Fvar = 1, Y = 2. -/
theorem gaussian_predict_density_closed_form_witness :
    (0:ℝ) < 1 + 1 ∧
      Gaussian.predict_density 1 0 1 2
        = Real.log (ProbabilityTheory.gaussianPDFReal 0 ⟨1 + 1, by norm_num⟩ 2) :=
  ⟨by norm_num, gaussian_predict_density_closed_form 1 0 1 2 (by norm_num)⟩

/-- C3: for a RobustMax inverse link with K classes and error rate epsilon in
(0,1), every output row sums to 1, the entry at the row argmax equals
1 - epsilon, and every other entry equals epsilon / (K - 1). -/
theorem robustmax_row_props (epsilon : ℝ) (K : ℕ) (F : List ℝ) (hK : 2 ≤ K)
    (hF : F.length = K) (h0 : 0 < epsilon) (h1 : epsilon < 1) :
    (RobustMax.call epsilon K F).sum = 1
    ∧ (RobustMax.call epsilon K F).getD (argmaxIdx F) 0 = 1 - epsilon
    ∧ ∀ j, j < K → j ≠ argmaxIdx F →
        (RobustMax.call epsilon K F).getD j 0 = epsilon / ((K : ℝ) - 1) := by
  have hKpos : 0 < F.length := by omega
  have hi : argmaxIdx F < K := hF ▸ argmaxIdx_lt F hKpos
  have hK2 : (2:ℝ) ≤ (K:ℝ) := by exact_mod_cast hK
  have hKne : (K:ℝ) - 1 ≠ 0 := by linarith
  refine ⟨?_, ?_, ?_⟩
  · show (oneHot K (argmaxIdx F) (1 - epsilon) (RobustMax.eps_K1 epsilon K)).sum = 1
    unfold oneHot
    rw [sum_map_range]
    have hsplit : ∀ j ∈ Finset.range K,
        (if j = argmaxIdx F then (1 - epsilon) else RobustMax.eps_K1 epsilon K)
          = RobustMax.eps_K1 epsilon K
            + (if j = argmaxIdx F then (1 - epsilon - RobustMax.eps_K1 epsilon K) else 0) := by
      intro j _
      split <;> ring
    rw [Finset.sum_congr rfl hsplit, Finset.sum_add_distrib, Finset.sum_const,
      Finset.sum_ite_eq' (Finset.range K), if_pos (Finset.mem_range.mpr hi),
      Finset.card_range, nsmul_eq_mul]
    unfold RobustMax.eps_K1
    field_simp
    ring
  · show (oneHot K (argmaxIdx F) (1 - epsilon) (RobustMax.eps_K1 epsilon K)).getD
        (argmaxIdx F) 0 = 1 - epsilon
    unfold oneHot
    rw [List.getD_eq_getElem?_getD, List.getElem?_map, List.getElem?_range hi]
    simp
  · intro j hj hne
    show (oneHot K (argmaxIdx F) (1 - epsilon) (RobustMax.eps_K1 epsilon K)).getD j 0
        = epsilon / ((K : ℝ) - 1)
    unfold oneHot
    rw [List.getD_eq_getElem?_getD, List.getElem?_map, List.getElem?_range hj]
    simp [hne, RobustMax.eps_K1]

/-- Witness for C3 at epsilon = 1/2, K = 3, F = [1, 5, 2]. -/
theorem robustmax_row_props_witness :
    (2 ≤ 3 ∧ ([(1:ℝ), 5, 2]).length = 3 ∧ (0:ℝ) < 1/2 ∧ (1:ℝ)/2 < 1)
    ∧ ((RobustMax.call (1/2) 3 [(1:ℝ), 5, 2]).sum = 1
       ∧ (RobustMax.call (1/2) 3 [(1:ℝ), 5, 2]).getD (argmaxIdx [(1:ℝ), 5, 2]) 0 = 1 - 1/2
       ∧ ∀ j, j < 3 → j ≠ argmaxIdx [(1:ℝ), 5, 2] →
           (RobustMax.call (1/2) 3 [(1:ℝ), 5, 2]).getD j 0 = (1/2) / ((3 : ℝ) - 1)) :=
  ⟨⟨by norm_num, by norm_num, by norm_num, by norm_num⟩,
   robustmax_row_props (1/2) 3 [(1:ℝ), 5, 2] (by norm_num) (by norm_num)
     (by norm_num) (by norm_num)⟩

/-! ## Source: Poisson, Exponential, StudentT, Bernoulli, Gamma, Beta -/

/-- Source Poisson.logp (lines 273-274). -/
noncomputable def Poisson.logp (erf : ℝ → ℝ) (invlink : InvLink) (binsize F Y : ℝ) : ℝ :=
  logdensities.poisson Y (invlink.apply erf F * binsize)

/-- Source Poisson.conditional_mean (lines 279-280). -/
noncomputable def Poisson.conditional_mean (erf : ℝ → ℝ) (invlink : InvLink)
    (binsize F : ℝ) : ℝ :=
  invlink.apply erf F * binsize

/-- Source Poisson.conditional_variance (lines 276-277). -/
noncomputable def Poisson.conditional_variance (erf : ℝ → ℝ) (invlink : InvLink)
    (binsize F : ℝ) : ℝ :=
  invlink.apply erf F * binsize

/-- Source Poisson.variational_expectations (lines 282-286): a closed form
when the inverse link is the distinguished exp object, otherwise the generic
quadrature of logp inherited from Likelihood. -/
noncomputable def Poisson.variational_expectations (erf : ℝ → ℝ) (invlink : InvLink)
    (binsize : ℝ) (gh : List (ℝ × ℝ)) (Fmu Fvar Y : ℝ) : ℝ :=
  match invlink with
  | .exp => Y * Fmu - Real.exp (Fmu + Fvar / 2) * binsize
      - Real.log (Real.Gamma (Y + 1)) + Y * Real.log binsize
  | il => Likelihood.variational_expectations
      (fun f y => Poisson.logp erf il binsize f y) gh Fmu Fvar Y

/-- Source Exponential.conditional_variance (lines 314-315). -/
noncomputable def Exponential.conditional_variance (erf : ℝ → ℝ) (invlink : InvLink)
    (F : ℝ) : ℝ :=
  (invlink.apply erf F) ^ 2

/-- Source StudentT.conditional_variance (lines 354-357): a constant fill of
scale^2 * df / (df - 2). -/
noncomputable def StudentT.conditional_variance (scale df _F : ℝ) : ℝ :=
  scale ^ 2 * (df / (df - 2.0))

/-- Source Bernoulli.conditional_mean (lines 398-399). -/
noncomputable def Bernoulli.conditional_mean (erf : ℝ → ℝ) (invlink : InvLink)
    (F : ℝ) : ℝ :=
  invlink.apply erf F

/-- Source Bernoulli.conditional_variance (lines 401-403): p - p^2. -/
noncomputable def Bernoulli.conditional_variance (erf : ℝ → ℝ) (invlink : InvLink)
    (F : ℝ) : ℝ :=
  Bernoulli.conditional_mean erf invlink F - (Bernoulli.conditional_mean erf invlink F) ^ 2

/-- Source Bernoulli.logp (lines 383-384). -/
noncomputable def Bernoulli.logp (erf : ℝ → ℝ) (invlink : InvLink) (F Y : ℝ) : ℝ :=
  logdensities.bernoulli Y (invlink.apply erf F)

/-- Source Bernoulli.predict_mean_and_var (lines 386-392): closed form when
the inverse link is the distinguished inv_probit object, otherwise the generic
quadrature implementation inherited from Likelihood. -/
noncomputable def Bernoulli.predict_mean_and_var (erf : ℝ → ℝ) (invlink : InvLink)
    (gh : List (ℝ × ℝ)) (Fmu Fvar : ℝ) : ℝ × ℝ :=
  match invlink with
  | .probit =>
      (inv_probit erf (Fmu / Real.sqrt (1 + Fvar)),
       inv_probit erf (Fmu / Real.sqrt (1 + Fvar))
         - (inv_probit erf (Fmu / Real.sqrt (1 + Fvar))) ^ 2)
  | il => Likelihood.predict_mean_and_var (Bernoulli.conditional_mean erf il)
      (Bernoulli.conditional_variance erf il) gh Fmu Fvar

/-- Source Bernoulli.predict_density (lines 394-396): the bernoulli log-mass
primitive at the first output of predict_mean_and_var. -/
noncomputable def Bernoulli.predict_density (erf : ℝ → ℝ) (invlink : InvLink)
    (gh : List (ℝ × ℝ)) (Fmu Fvar Y : ℝ) : ℝ :=
  logdensities.bernoulli Y (Bernoulli.predict_mean_and_var erf invlink gh Fmu Fvar).1

/-- Source Gamma.conditional_variance (lines 436-439): shape * scale^2 with
scale the inverse-link image. -/
noncomputable def Gamma.conditional_variance (erf : ℝ → ℝ) (invlink : InvLink)
    (shape F : ℝ) : ℝ :=
  shape * (invlink.apply erf F) ^ 2

/-- Source Beta.conditional_variance (lines 506-509): (mean - mean^2) divided
by scale + 1. -/
noncomputable def Beta.conditional_variance (erf : ℝ → ℝ) (invlink : InvLink)
    (scale F : ℝ) : ℝ :=
  (invlink.apply erf F - (invlink.apply erf F) ^ 2) / (scale + 1.0)

/-! ## Quadrature linearity helpers -/

lemma sum_map_add_real {α : Type} (l : List α) (f g : α → ℝ) :
    (l.map (fun x => f x + g x)).sum = (l.map f).sum + (l.map g).sum := by
  induction l with
  | nil => simp
  | cons a t ih => simp only [List.map_cons, List.sum_cons, ih]; ring

lemma sum_map_mul_left_real {α : Type} (l : List α) (c : ℝ) (f : α → ℝ) :
    (l.map (fun x => c * f x)).sum = c * (l.map f).sum := by
  induction l with
  | nil => simp
  | cons a t ih => simp only [List.map_cons, List.sum_cons, ih]; ring

/-- Gauss-Hermite quadrature of an integrand of the form
f ↦ a * f + c - b * exp f, for a rule whose weights sum to sqrt(pi) and whose
weighted abscissas sum to zero: the affine part is integrated exactly and only
the exponential part carries the quadrature approximation. -/
lemma ndiagquad1_affine_exp (a c b : ℝ) (gh : List (ℝ × ℝ)) (Fmu Fvar : ℝ)
    (hw : (gh.map (fun p => p.2)).sum = Real.sqrt Real.pi)
    (hwx : (gh.map (fun p => p.2 * p.1)).sum = 0) :
    ndiagquad1 (fun f => a * f + c - b * Real.exp f) gh Fmu Fvar
      = a * Fmu + c - b * ndiagquad1 Real.exp gh Fmu Fvar := by
  have hsp : Real.sqrt Real.pi ≠ 0 := ne_of_gt (Real.sqrt_pos.mpr Real.pi_pos)
  unfold ndiagquad1
  have hpt : (fun (p : ℝ × ℝ) => p.2 / Real.sqrt Real.pi *
        (a * (Fmu + Real.sqrt (2 * Fvar) * p.1) + c
          - b * Real.exp (Fmu + Real.sqrt (2 * Fvar) * p.1)))
      = fun (p : ℝ × ℝ) =>
          (((a * Fmu + c) / Real.sqrt Real.pi) * p.2
            + (a * Real.sqrt (2 * Fvar) / Real.sqrt Real.pi) * (p.2 * p.1))
          + (-b) * (p.2 / Real.sqrt Real.pi
              * Real.exp (Fmu + Real.sqrt (2 * Fvar) * p.1)) := by
    funext p
    ring
  rw [hpt, sum_map_add_real, sum_map_add_real,
    sum_map_mul_left_real, sum_map_mul_left_real, sum_map_mul_left_real,
    hw, hwx]
  field_simp
  ring

/-! ## Claim theorems: C5, C7, C10 -/

/-- C5: Poisson.variational_expectations is the closed form
Y * Fmu - binsize * exp(Fmu + Fvar/2) - lgamma(Y+1) + Y * log(binsize) exactly
when the inverse link is exp, falls back to the generic quadrature of logp for
any other link, and in the exp case the difference between the closed form and
the generic quadrature equals binsize times the quadrature error on the
exponential integrand alone (zero in the limit of the quadrature rule). -/
theorem poisson_variational_expectations_dispatch (erf : ℝ → ℝ) (g : ℝ → ℝ)
    (binsize : ℝ) (gh : List (ℝ × ℝ)) (Fmu Fvar Y : ℝ)
    (hb : 0 < binsize)
    (hw : (gh.map (fun p => p.2)).sum = Real.sqrt Real.pi)
    (hwx : (gh.map (fun p => p.2 * p.1)).sum = 0) :
    (Poisson.variational_expectations erf .exp binsize gh Fmu Fvar Y
       = Y * Fmu - Real.exp (Fmu + Fvar / 2) * binsize
         - Real.log (Real.Gamma (Y + 1)) + Y * Real.log binsize)
    ∧ (Poisson.variational_expectations erf (.custom g) binsize gh Fmu Fvar Y
       = Likelihood.variational_expectations
           (fun f y => Poisson.logp erf (.custom g) binsize f y) gh Fmu Fvar Y)
    ∧ (Poisson.variational_expectations erf .exp binsize gh Fmu Fvar Y
         - Likelihood.variational_expectations
             (fun f y => Poisson.logp erf .exp binsize f y) gh Fmu Fvar Y
       = binsize * (ndiagquad1 Real.exp gh Fmu Fvar - Real.exp (Fmu + Fvar / 2))) := by
  refine ⟨rfl, rfl, ?_⟩
  have hfun : (fun f => Poisson.logp erf .exp binsize f Y)
      = fun f => Y * f + (Y * Real.log binsize - Real.log (Real.Gamma (Y + 1)))
          - binsize * Real.exp f := by
    funext f
    unfold Poisson.logp logdensities.poisson InvLink.apply
    rw [Real.log_mul (Real.exp_ne_zero f) (ne_of_gt hb), Real.log_exp]
    ring
  unfold Likelihood.variational_expectations
  rw [hfun, ndiagquad1_affine_exp Y _ binsize gh Fmu Fvar hw hwx]
  show Poisson.variational_expectations erf .exp binsize gh Fmu Fvar Y - _ = _
  unfold Poisson.variational_expectations
  ring

/-- Witness for C5 with the two-point symmetric rule of weights sqrt(pi)/2. -/
theorem poisson_variational_expectations_dispatch_witness :
    ((0:ℝ) < 2
      ∧ (([((1:ℝ), Real.sqrt Real.pi / 2), ((-1:ℝ), Real.sqrt Real.pi / 2)]).map
          (fun p => p.2)).sum = Real.sqrt Real.pi
      ∧ (([((1:ℝ), Real.sqrt Real.pi / 2), ((-1:ℝ), Real.sqrt Real.pi / 2)]).map
          (fun p => p.2 * p.1)).sum = 0)
    ∧ ((Poisson.variational_expectations (fun _ => 0) .exp 2
          [((1:ℝ), Real.sqrt Real.pi / 2), ((-1:ℝ), Real.sqrt Real.pi / 2)] 0 1 3
        = 3 * 0 - Real.exp (0 + 1 / 2) * 2 - Real.log (Real.Gamma (3 + 1)) + 3 * Real.log 2)
      ∧ (Poisson.variational_expectations (fun _ => 0) (.custom id) 2
          [((1:ℝ), Real.sqrt Real.pi / 2), ((-1:ℝ), Real.sqrt Real.pi / 2)] 0 1 3
        = Likelihood.variational_expectations
            (fun f y => Poisson.logp (fun _ => 0) (.custom id) 2 f y)
            [((1:ℝ), Real.sqrt Real.pi / 2), ((-1:ℝ), Real.sqrt Real.pi / 2)] 0 1 3)
      ∧ (Poisson.variational_expectations (fun _ => 0) .exp 2
          [((1:ℝ), Real.sqrt Real.pi / 2), ((-1:ℝ), Real.sqrt Real.pi / 2)] 0 1 3
         - Likelihood.variational_expectations
             (fun f y => Poisson.logp (fun _ => 0) .exp 2 f y)
             [((1:ℝ), Real.sqrt Real.pi / 2), ((-1:ℝ), Real.sqrt Real.pi / 2)] 0 1 3
        = 2 * (ndiagquad1 Real.exp
              [((1:ℝ), Real.sqrt Real.pi / 2), ((-1:ℝ), Real.sqrt Real.pi / 2)] 0 1
            - Real.exp (0 + 1 / 2)))) :=
  ⟨⟨by norm_num, by simp, by simp⟩,
   poisson_variational_expectations_dispatch (fun _ => 0) id 2
     [((1:ℝ), Real.sqrt Real.pi / 2), ((-1:ℝ), Real.sqrt Real.pi / 2)] 0 1 3
     (by norm_num) (by simp) (by simp)⟩

/-- C7: Bernoulli.predict_mean_and_var is the probit closed form
p = inv_probit(Fmu / sqrt(1 + Fvar)), variance p - p^2, exactly when the
inverse link is the probit, and the generic quadrature implementation for any
other inverse link. -/
theorem bernoulli_predict_mean_and_var_dispatch (erf : ℝ → ℝ)
    (gh : List (ℝ × ℝ)) (Fmu Fvar : ℝ) :
    (Bernoulli.predict_mean_and_var erf .probit gh Fmu Fvar
       = (inv_probit erf (Fmu / Real.sqrt (1 + Fvar)),
          inv_probit erf (Fmu / Real.sqrt (1 + Fvar))
            - (inv_probit erf (Fmu / Real.sqrt (1 + Fvar))) ^ 2))
    ∧ (∀ il : InvLink, il ≠ .probit →
        Bernoulli.predict_mean_and_var erf il gh Fmu Fvar
          = Likelihood.predict_mean_and_var (Bernoulli.conditional_mean erf il)
              (Bernoulli.conditional_variance erf il) gh Fmu Fvar) := by
  refine ⟨rfl, ?_⟩
  intro il hil
  cases il with
  | exp => rfl
  | probit => exact absurd rfl hil
  | custom f => rfl

/-- Witness for C7 at the generic exp link and at the probit link. -/
theorem bernoulli_predict_mean_and_var_dispatch_witness :
    (InvLink.exp ≠ InvLink.probit)
    ∧ (Bernoulli.predict_mean_and_var (fun _ => 0) .probit [] 0 1
       = (inv_probit (fun _ => 0) (0 / Real.sqrt (1 + 1)),
          inv_probit (fun _ => 0) (0 / Real.sqrt (1 + 1))
            - (inv_probit (fun _ => 0) (0 / Real.sqrt (1 + 1))) ^ 2))
    ∧ (Bernoulli.predict_mean_and_var (fun _ => 0) .exp [] 0 1
       = Likelihood.predict_mean_and_var (Bernoulli.conditional_mean (fun _ => 0) .exp)
           (Bernoulli.conditional_variance (fun _ => 0) .exp) [] 0 1) :=
  ⟨fun h => InvLink.noConfusion h,
   (bernoulli_predict_mean_and_var_dispatch (fun _ => 0) [] 0 1).1,
   (bernoulli_predict_mean_and_var_dispatch (fun _ => 0) [] 0 1).2 .exp
     (fun h => InvLink.noConfusion h)⟩

/-- C10: Bernoulli.predict_density is the bernoulli log-mass of Y at p, where
p is the first output of Bernoulli.predict_mean_and_var: with the probit link
it shares the closed-form probit path, with any other link it uses the
quadrature-based mean, never the generic logspace quadrature over logp. -/
theorem bernoulli_predict_density_via_pmv (erf : ℝ → ℝ) (gh : List (ℝ × ℝ))
    (Fmu Fvar Y : ℝ) :
    (Bernoulli.predict_density erf .probit gh Fmu Fvar Y
       = logdensities.bernoulli Y (Bernoulli.predict_mean_and_var erf .probit gh Fmu Fvar).1)
    ∧ (Bernoulli.predict_density erf .probit gh Fmu Fvar Y
       = logdensities.bernoulli Y (inv_probit erf (Fmu / Real.sqrt (1 + Fvar))))
    ∧ (∀ il : InvLink, il ≠ .probit →
        Bernoulli.predict_density erf il gh Fmu Fvar Y
          = logdensities.bernoulli Y
              (ndiagquad1 (Bernoulli.conditional_mean erf il) gh Fmu Fvar)) := by
  refine ⟨rfl, rfl, ?_⟩
  intro il hil
  cases il with
  | exp => rfl
  | probit => exact absurd rfl hil
  | custom f => rfl

/-- Witness for C10 at the probit and exp links. -/
theorem bernoulli_predict_density_via_pmv_witness :
    (InvLink.exp ≠ InvLink.probit)
    ∧ (Bernoulli.predict_density (fun _ => 0) .probit [] 0 1 1
       = logdensities.bernoulli 1
           (Bernoulli.predict_mean_and_var (fun _ => 0) .probit [] 0 1).1)
    ∧ (Bernoulli.predict_density (fun _ => 0) .exp [] 0 1 1
       = logdensities.bernoulli 1
           (ndiagquad1 (Bernoulli.conditional_mean (fun _ => 0) .exp) [] 0 1)) :=
  ⟨fun h => InvLink.noConfusion h,
   (bernoulli_predict_density_via_pmv (fun _ => 0) [] 0 1 1).1,
   (bernoulli_predict_density_via_pmv (fun _ => 0) [] 0 1 1).2.2 .exp
     (fun h => InvLink.noConfusion h)⟩

/-! ## Source: MultiClass and SoftMax conditional moments -/

/-- Source MultiClass.conditional_mean (lines 627-628): the RobustMax image. -/
noncomputable def MultiClass.conditional_mean (epsilon : ℝ) (num_classes : ℕ)
    (F : List ℝ) : List ℝ :=
  RobustMax.call epsilon num_classes F

/-- Source MultiClass.conditional_variance (lines 630-632): p - p^2
elementwise on the RobustMax image. -/
noncomputable def MultiClass.conditional_variance (epsilon : ℝ) (num_classes : ℕ)
    (F : List ℝ) : List ℝ :=
  (MultiClass.conditional_mean epsilon num_classes F).map (fun p => p - p ^ 2)

/-- The tf.nn.softmax primitive on a row. -/
noncomputable def softmax (f : List ℝ) : List ℝ :=
  f.map (fun x => Real.exp x / (f.map Real.exp).sum)

/-- Source SoftMax.conditional_mean (lines 884-885). -/
noncomputable def SoftMax.conditional_mean (F : List ℝ) : List ℝ := softmax F

/-- Source SoftMax.conditional_variance (lines 887-889): p - p^2 elementwise
on the softmax image. -/
noncomputable def SoftMax.conditional_variance (F : List ℝ) : List ℝ :=
  (SoftMax.conditional_mean F).map (fun p => p - p ^ 2)

/-! ## Source: Ordinal likelihood (lines 694-768)

The source concatenates the scaled bin edges with numpy infinities; the
IEEE extended real line is embedded as XReal, with the float rules the source
relies on: inf - c = inf, -inf - c = -inf, erf(inf) = 1, erf(-inf) = -1. -/

/-- An IEEE-style extended real: a finite value or one of the two infinities
used as sentinels by Ordinal. -/
inductive XReal where
  | negInf
  | fin (x : ℝ)
  | posInf

/-- Subtraction of a finite real from an extended real, as computed by the
tensor framework on float infinities. -/
noncomputable def XReal.subR : XReal → ℝ → XReal
  | .negInf, _ => .negInf
  | .fin x, c => .fin (x - c)
  | .posInf, _ => .posInf

/-- The order on extended reals. -/
def XReal.le : XReal → XReal → Prop
  | .negInf, _ => True
  | .fin _, .negInf => False
  | .fin x, .fin y => x ≤ y
  | .fin _, .posInf => True
  | .posInf, .posInf => True
  | .posInf, _ => False

/-- inv_probit extended to the float infinities: erf(-inf) = -1 gives the
jitter value 1e-3, erf(inf) = 1 gives 1 - 1e-3. -/
noncomputable def invProbitX (erf : ℝ → ℝ) : XReal → ℝ
  | .negInf => (1e-3 : ℝ)
  | .fin x => inv_probit erf x
  | .posInf => 1 - (1e-3 : ℝ)

/-- Source Ordinal: scaled_bins_left = concat(bin_edges / sigma, [inf]). -/
noncomputable def Ordinal.scaled_bins_left (bin_edges : List ℝ) (sigma : ℝ) : List XReal :=
  bin_edges.map (fun a => XReal.fin (a / sigma)) ++ [XReal.posInf]

/-- Source Ordinal: scaled_bins_right = concat([-inf], bin_edges / sigma). -/
noncomputable def Ordinal.scaled_bins_right (bin_edges : List ℝ) (sigma : ℝ) : List XReal :=
  XReal.negInf :: bin_edges.map (fun a => XReal.fin (a / sigma))

/-- Source Ordinal.num_bins = bin_edges.size + 1. -/
def Ordinal.num_bins (bin_edges : List ℝ) : ℕ := bin_edges.length + 1

/-- Source Ordinal._make_phi (lines 744-756), entry for label k: the probit
difference between the adjacent scaled bin edges shifted by F / sigma. -/
noncomputable def Ordinal.make_phi (erf : ℝ → ℝ) (bin_edges : List ℝ)
    (sigma F : ℝ) (k : ℕ) : ℝ :=
  invProbitX erf (((Ordinal.scaled_bins_left bin_edges sigma).getD k .posInf).subR (F / sigma))
    - invProbitX erf
        (((Ordinal.scaled_bins_right bin_edges sigma).getD k .negInf).subR (F / sigma))

/-- Source Ordinal.conditional_mean (lines 758-761): the dot product of the
phi row with the label values 0..num_bins-1. -/
noncomputable def Ordinal.conditional_mean (erf : ℝ → ℝ) (bin_edges : List ℝ)
    (sigma F : ℝ) : ℝ :=
  ∑ k ∈ Finset.range (Ordinal.num_bins bin_edges),
    Ordinal.make_phi erf bin_edges sigma F k * (k : ℝ)

/-- Source Ordinal.conditional_variance (lines 763-768): E[Y^2] - E[Y]^2
under the phi row. -/
noncomputable def Ordinal.conditional_variance (erf : ℝ → ℝ) (bin_edges : List ℝ)
    (sigma F : ℝ) : ℝ :=
  (∑ k ∈ Finset.range (Ordinal.num_bins bin_edges),
      Ordinal.make_phi erf bin_edges sigma F k * (k : ℝ) ^ 2)
    - (∑ k ∈ Finset.range (Ordinal.num_bins bin_edges),
        Ordinal.make_phi erf bin_edges sigma F k * (k : ℝ)) ^ 2

/-! ## Helper lemmas for nonnegative conditional variances -/

lemma inv_probit_le_of_le (erf : ℝ → ℝ) (hm : Monotone erf) {x y : ℝ} (h : x ≤ y) :
    inv_probit erf x ≤ inv_probit erf y := by
  unfold inv_probit
  have h1 : erf (x / Real.sqrt 2.0) ≤ erf (y / Real.sqrt 2.0) := by
    apply hm
    have h2 : (0:ℝ) < Real.sqrt 2.0 := Real.sqrt_pos.mpr (by norm_num)
    exact (div_le_div_iff_of_pos_right h2).mpr h
  nlinarith

lemma inv_probit_bounds (erf : ℝ → ℝ) (hb : ∀ x, -1 ≤ erf x ∧ erf x ≤ 1) (x : ℝ) :
    (1e-3 : ℝ) ≤ inv_probit erf x ∧ inv_probit erf x ≤ 1 - (1e-3 : ℝ) := by
  obtain ⟨hl, hr⟩ := hb (x / Real.sqrt 2.0)
  unfold inv_probit
  constructor <;> nlinarith

lemma invProbitX_mono (erf : ℝ → ℝ) (hm : Monotone erf)
    (hb : ∀ x, -1 ≤ erf x ∧ erf x ≤ 1) {a b : XReal} (h : a.le b) :
    invProbitX erf a ≤ invProbitX erf b := by
  cases a with
  | negInf =>
      cases b with
      | negInf => exact le_refl _
      | fin y => exact (inv_probit_bounds erf hb y).1
      | posInf => norm_num [invProbitX]
  | fin x =>
      cases b with
      | negInf => exact absurd h (by simp [XReal.le])
      | fin y => exact inv_probit_le_of_le erf hm h
      | posInf => exact (inv_probit_bounds erf hb x).2
  | posInf =>
      cases b with
      | negInf => exact absurd h (by simp [XReal.le])
      | fin y => exact absurd h (by simp [XReal.le])
      | posInf => exact le_refl _

lemma XReal.le_subR {a b : XReal} (c : ℝ) (h : a.le b) : (a.subR c).le (b.subR c) := by
  cases a <;> cases b <;> simp_all [XReal.le, XReal.subR]

lemma var_nonneg_of_subprob (K : ℕ) (w : ℕ → ℝ)
    (hw : ∀ k ∈ Finset.range K, 0 ≤ w k)
    (hsum : ∑ k ∈ Finset.range K, w k ≤ 1) :
    0 ≤ (∑ k ∈ Finset.range K, w k * (k : ℝ) ^ 2)
      - (∑ k ∈ Finset.range K, w k * (k : ℝ)) ^ 2 := by
  have cs := Finset.sum_mul_sq_le_sq_mul_sq (Finset.range K)
    (fun k => Real.sqrt (w k)) (fun k => Real.sqrt (w k) * (k : ℝ))
  have e1 : ∑ k ∈ Finset.range K, Real.sqrt (w k) * (Real.sqrt (w k) * (k : ℝ))
      = ∑ k ∈ Finset.range K, w k * (k : ℝ) := by
    refine Finset.sum_congr rfl (fun k hk => ?_)
    rw [← mul_assoc, Real.mul_self_sqrt (hw k hk)]
  have e2 : ∑ k ∈ Finset.range K, (Real.sqrt (w k)) ^ 2
      = ∑ k ∈ Finset.range K, w k := by
    refine Finset.sum_congr rfl (fun k hk => ?_)
    rw [Real.sq_sqrt (hw k hk)]
  have e3 : ∑ k ∈ Finset.range K, (Real.sqrt (w k) * (k : ℝ)) ^ 2
      = ∑ k ∈ Finset.range K, w k * (k : ℝ) ^ 2 := by
    refine Finset.sum_congr rfl (fun k hk => ?_)
    rw [mul_pow, Real.sq_sqrt (hw k hk)]
  rw [e1, e2, e3] at cs
  have hq : 0 ≤ ∑ k ∈ Finset.range K, w k * (k : ℝ) ^ 2 :=
    Finset.sum_nonneg (fun k hk => mul_nonneg (hw k hk) (sq_nonneg _))
  nlinarith

lemma ordinal_phi_nonneg (erf : ℝ → ℝ) (hm : Monotone erf)
    (hb : ∀ x, -1 ≤ erf x ∧ erf x ≤ 1) (edges : List ℝ) (sigma F : ℝ)
    (hsort : edges.Sorted (· ≤ ·)) (hs : 0 < sigma)
    (k : ℕ) (hk : k < Ordinal.num_bins edges) :
    0 ≤ Ordinal.make_phi erf edges sigma F k := by
  unfold Ordinal.make_phi
  rw [sub_nonneg]
  apply invProbitX_mono erf hm hb
  apply XReal.le_subR
  cases k with
  | zero =>
      simp only [Ordinal.scaled_bins_right, List.getD_cons_zero]
      trivial
  | succ j =>
      have hj : j < edges.length := by
        unfold Ordinal.num_bins at hk
        omega
      have hR : (Ordinal.scaled_bins_right edges sigma).getD (j+1) .negInf
          = XReal.fin (edges.get ⟨j, hj⟩ / sigma) := by
        simp only [Ordinal.scaled_bins_right, List.getD_cons_succ]
        rw [List.getD_eq_getElem _ _ (by simpa using hj)]
        simp
      rw [hR]
      by_cases hj1 : j + 1 < edges.length
      · have hL : (Ordinal.scaled_bins_left edges sigma).getD (j+1) .posInf
            = XReal.fin (edges.get ⟨j+1, hj1⟩ / sigma) := by
          unfold Ordinal.scaled_bins_left
          rw [List.getD_append _ _ _ _ (by simpa using hj1)]
          rw [List.getD_eq_getElem _ _ (by simpa using hj1)]
          simp
        rw [hL]
        show edges.get ⟨j, hj⟩ / sigma ≤ edges.get ⟨j+1, hj1⟩ / sigma
        apply (div_le_div_iff_of_pos_right hs).mpr
        exact hsort.rel_get_of_lt (by simp)
      · have hL : (Ordinal.scaled_bins_left edges sigma).getD (j+1) .posInf
            = XReal.posInf := by
          unfold Ordinal.scaled_bins_left
          have hlen : edges.length ≤ j + 1 := by omega
          rw [List.getD_append_right _ _ _ _ (by simpa using hlen)]
          have : j + 1 = edges.length := by omega
          simp [this]
        rw [hL]
        trivial

lemma ordinal_phi_sum (erf : ℝ → ℝ) (edges : List ℝ) (sigma F : ℝ) :
    ∑ k ∈ Finset.range (Ordinal.num_bins edges),
        Ordinal.make_phi erf edges sigma F k
      = (1 - (1e-3 : ℝ)) - (1e-3 : ℝ) := by
  set es : List XReal := edges.map (fun a => XReal.fin (a / sigma)) with hes
  set G : ℕ → ℝ := fun k =>
    invProbitX erf
      (((XReal.negInf :: (es ++ [XReal.posInf])).getD k XReal.negInf).subR (F / sigma))
    with hG
  have hlen : (es ++ [XReal.posInf]).length = edges.length + 1 := by
    simp [hes]
  have hphi : ∀ k ∈ Finset.range (Ordinal.num_bins edges),
      Ordinal.make_phi erf edges sigma F k = G (k + 1) - G k := by
    intro k hk
    rw [Finset.mem_range] at hk
    unfold Ordinal.num_bins at hk
    have h1 : (Ordinal.scaled_bins_left edges sigma).getD k .posInf
        = (XReal.negInf :: (es ++ [XReal.posInf])).getD (k + 1) XReal.negInf := by
      rw [List.getD_cons_succ]
      unfold Ordinal.scaled_bins_left
      rw [List.getD_eq_getElem _ _ (by omega : k < (es ++ [XReal.posInf]).length),
        List.getD_eq_getElem _ _ (by omega : k < (es ++ [XReal.posInf]).length)]
    have h2 : (Ordinal.scaled_bins_right edges sigma).getD k .negInf
        = (XReal.negInf :: (es ++ [XReal.posInf])).getD k XReal.negInf := by
      cases k with
      | zero => simp [Ordinal.scaled_bins_right]
      | succ j =>
          have hj : j < es.length := by simp [hes]; omega
          rw [List.getD_cons_succ]
          unfold Ordinal.scaled_bins_right
          rw [List.getD_cons_succ, List.getD_append _ _ _ _ hj]
    unfold Ordinal.make_phi
    rw [h1, h2, hG]
  rw [Finset.sum_congr rfl hphi, Finset.sum_range_sub]
  have hK : (XReal.negInf :: (es ++ [XReal.posInf])).getD (Ordinal.num_bins edges)
      XReal.negInf = XReal.posInf := by
    unfold Ordinal.num_bins
    rw [List.getD_cons_succ]
    rw [List.getD_append_right _ _ _ _ (by simp [hes])]
    simp [hes]
  have h0 : (XReal.negInf :: (es ++ [XReal.posInf])).getD 0 XReal.negInf
      = XReal.negInf := by
    simp
  rw [hG]
  simp only [hK, h0]
  simp [XReal.subR, invProbitX]

lemma ordinal_conditional_variance_nonneg (erf : ℝ → ℝ) (hm : Monotone erf)
    (hb : ∀ x, -1 ≤ erf x ∧ erf x ≤ 1) (edges : List ℝ) (sigma F : ℝ)
    (hsort : edges.Sorted (· ≤ ·)) (hs : 0 < sigma) :
    0 ≤ Ordinal.conditional_variance erf edges sigma F := by
  unfold Ordinal.conditional_variance
  apply var_nonneg_of_subprob
  · intro k hk
    exact ordinal_phi_nonneg erf hm hb edges sigma F hsort hs k (Finset.mem_range.mp hk)
  · rw [ordinal_phi_sum]
    norm_num

lemma softmax_mem_unit (f : List ℝ) {p : ℝ} (hp : p ∈ softmax f) : 0 ≤ p ∧ p ≤ 1 := by
  unfold softmax at hp
  obtain ⟨x, hx, rfl⟩ := List.mem_map.mp hp
  have hnn : ∀ y ∈ f.map Real.exp, 0 ≤ y := by
    intro y hy
    obtain ⟨z, _, rfl⟩ := List.mem_map.mp hy
    exact (Real.exp_pos z).le
  have hS : Real.exp x ≤ (f.map Real.exp).sum :=
    List.single_le_sum hnn _ (List.mem_map_of_mem _ hx)
  have hS0 : 0 < (f.map Real.exp).sum := lt_of_lt_of_le (Real.exp_pos x) hS
  exact ⟨div_nonneg (Real.exp_pos x).le hS0.le, (div_le_one hS0).mpr hS⟩

lemma robustmax_mem (epsilon : ℝ) (K : ℕ) (F : List ℝ) {p : ℝ}
    (hp : p ∈ RobustMax.call epsilon K F) :
    p = 1 - epsilon ∨ p = RobustMax.eps_K1 epsilon K := by
  unfold RobustMax.call oneHot at hp
  obtain ⟨j, _, rfl⟩ := List.mem_map.mp hp
  by_cases h : j = argmaxIdx F
  · left
    simp [h]
  · right
    simp [h]

/-! ## Claim theorem: C4 -/

/-- C4: for every concrete likelihood variant and every valid latent input
(with hyperparameters in their valid domains: positive variance/binsize/shape,
inverse-link images in the parameter domain, StudentT df > 2, RobustMax
epsilon in (0,1) with at least two classes, sorted ordinal bin edges and a
monotone bounded erf), conditional_variance is elementwise non-negative. -/
theorem conditional_variances_nonneg :
    (∀ variance F : ℝ, 0 ≤ variance → 0 ≤ Gaussian.conditional_variance variance F)
    ∧ (∀ (erf : ℝ → ℝ) (il : InvLink) (binsize F : ℝ),
        0 ≤ il.apply erf F → 0 ≤ binsize →
          0 ≤ Poisson.conditional_variance erf il binsize F)
    ∧ (∀ (erf : ℝ → ℝ) (il : InvLink) (F : ℝ),
        0 ≤ Exponential.conditional_variance erf il F)
    ∧ (∀ scale df F : ℝ, 2 < df → 0 ≤ StudentT.conditional_variance scale df F)
    ∧ (∀ (erf : ℝ → ℝ) (il : InvLink) (F : ℝ),
        0 ≤ il.apply erf F → il.apply erf F ≤ 1 →
          0 ≤ Bernoulli.conditional_variance erf il F)
    ∧ (∀ (erf : ℝ → ℝ) (il : InvLink) (shape F : ℝ),
        0 ≤ shape → 0 ≤ Gamma.conditional_variance erf il shape F)
    ∧ (∀ (erf : ℝ → ℝ) (il : InvLink) (scale F : ℝ),
        0 ≤ il.apply erf F → il.apply erf F ≤ 1 → 0 < scale →
          0 ≤ Beta.conditional_variance erf il scale F)
    ∧ (∀ (erf : ℝ → ℝ) (edges : List ℝ) (sigma F : ℝ), Monotone erf →
        (∀ x, -1 ≤ erf x ∧ erf x ≤ 1) → edges.Sorted (· ≤ ·) → 0 < sigma →
          0 ≤ Ordinal.conditional_variance erf edges sigma F)
    ∧ (∀ (epsilon : ℝ) (K : ℕ) (F : List ℝ), 0 < epsilon → epsilon < 1 → 2 ≤ K →
        ∀ v ∈ MultiClass.conditional_variance epsilon K F, 0 ≤ v)
    ∧ (∀ F : List ℝ, ∀ v ∈ SoftMax.conditional_variance F, 0 ≤ v) := by
  refine ⟨?_, ?_, ?_, ?_, ?_, ?_, ?_, ?_, ?_, ?_⟩
  · intro variance F h
    exact h
  · intro erf il binsize F h1 h2
    exact mul_nonneg h1 h2
  · intro erf il F
    exact sq_nonneg _
  · intro scale df F h
    exact mul_nonneg (sq_nonneg _) (div_nonneg (by linarith) (by linarith))
  · intro erf il F h0 h1
    unfold Bernoulli.conditional_variance Bernoulli.conditional_mean
    nlinarith
  · intro erf il shape F h
    exact mul_nonneg h (sq_nonneg _)
  · intro erf il scale F h0 h1 hsc
    unfold Beta.conditional_variance
    apply div_nonneg (by nlinarith) (by linarith)
  · intro erf edges sigma F hm hb hsort hs
    exact ordinal_conditional_variance_nonneg erf hm hb edges sigma F hsort hs
  · intro epsilon K F h0 h1 hK v hv
    unfold MultiClass.conditional_variance MultiClass.conditional_mean at hv
    obtain ⟨p, hp, rfl⟩ := List.mem_map.mp hv
    have hK2 : (2:ℝ) ≤ (K:ℝ) := by exact_mod_cast hK
    rcases robustmax_mem epsilon K F hp with h | h
    · nlinarith
    · have hq0 : 0 ≤ RobustMax.eps_K1 epsilon K :=
        div_nonneg h0.le (by linarith)
      have hq1 : RobustMax.eps_K1 epsilon K ≤ 1 := by
        unfold RobustMax.eps_K1
        exact (div_le_one (by linarith)).mpr (by linarith)
      nlinarith
  · intro F v hv
    unfold SoftMax.conditional_variance SoftMax.conditional_mean at hv
    obtain ⟨p, hp, rfl⟩ := List.mem_map.mp hv
    obtain ⟨hp0, hp1⟩ := softmax_mem_unit F hp
    nlinarith

/-- Witness for C4: each conjunct applied at a concrete valid instance. -/
theorem conditional_variances_nonneg_witness :
    ((0:ℝ) ≤ 1 ∧ 0 ≤ Gaussian.conditional_variance 1 0)
    ∧ (0 ≤ InvLink.apply (fun _ => 0) (.custom (fun _ => 1/2)) 0 ∧ (0:ℝ) ≤ 1
        ∧ 0 ≤ Poisson.conditional_variance (fun _ => 0) (.custom (fun _ => 1/2)) 1 0)
    ∧ (0 ≤ Exponential.conditional_variance (fun _ => 0) (.custom (fun _ => 1/2)) 0)
    ∧ ((2:ℝ) < 3 ∧ 0 ≤ StudentT.conditional_variance 1 3 0)
    ∧ (0 ≤ InvLink.apply (fun _ => 0) (.custom (fun _ => 1/2)) 0
        ∧ InvLink.apply (fun _ => 0) (.custom (fun _ => 1/2)) 0 ≤ 1
        ∧ 0 ≤ Bernoulli.conditional_variance (fun _ => 0) (.custom (fun _ => 1/2)) 0)
    ∧ ((0:ℝ) ≤ 1 ∧ 0 ≤ Gamma.conditional_variance (fun _ => 0) (.custom (fun _ => 1/2)) 1 0)
    ∧ ((0:ℝ) < 1 ∧ 0 ≤ Beta.conditional_variance (fun _ => 0) (.custom (fun _ => 1/2)) 1 0)
    ∧ (Monotone (fun _ : ℝ => (0:ℝ)) ∧ ([] : List ℝ).Sorted (· ≤ ·) ∧ (0:ℝ) < 1
        ∧ 0 ≤ Ordinal.conditional_variance (fun _ => 0) [] 1 0)
    ∧ ((0:ℝ) < 1/2 ∧ (1:ℝ)/2 < 1 ∧ 2 ≤ 2
        ∧ ∀ v ∈ MultiClass.conditional_variance (1/2) 2 [1, 2], 0 ≤ v)
    ∧ (∀ v ∈ SoftMax.conditional_variance [0], 0 ≤ v) :=
  ⟨⟨by norm_num, conditional_variances_nonneg.1 1 0 (by norm_num)⟩,
   ⟨by norm_num [InvLink.apply], by norm_num,
    conditional_variances_nonneg.2.1 (fun _ => 0) (.custom (fun _ => 1/2)) 1 0
      (by norm_num [InvLink.apply]) (by norm_num)⟩,
   conditional_variances_nonneg.2.2.1 (fun _ => 0) (.custom (fun _ => 1/2)) 0,
   ⟨by norm_num, conditional_variances_nonneg.2.2.2.1 1 3 0 (by norm_num)⟩,
   ⟨by norm_num [InvLink.apply], by norm_num [InvLink.apply],
    conditional_variances_nonneg.2.2.2.2.1 (fun _ => 0) (.custom (fun _ => 1/2)) 0
      (by norm_num [InvLink.apply]) (by norm_num [InvLink.apply])⟩,
   ⟨by norm_num, conditional_variances_nonneg.2.2.2.2.2.1 (fun _ => 0)
      (.custom (fun _ => 1/2)) 1 0 (by norm_num)⟩,
   ⟨by norm_num, conditional_variances_nonneg.2.2.2.2.2.2.1 (fun _ => 0)
      (.custom (fun _ => 1/2)) 1 0 (by norm_num [InvLink.apply])
      (by norm_num [InvLink.apply]) (by norm_num)⟩,
   ⟨monotone_const, List.sorted_nil, by norm_num,
    conditional_variances_nonneg.2.2.2.2.2.2.2.1 (fun _ => 0) [] 1 0 monotone_const
      (by norm_num) List.sorted_nil (by norm_num)⟩,
   ⟨by norm_num, by norm_num, by norm_num,
    conditional_variances_nonneg.2.2.2.2.2.2.2.2.1 (1/2) 2 [1, 2] (by norm_num)
      (by norm_num) (by norm_num)⟩,
   conditional_variances_nonneg.2.2.2.2.2.2.2.2.2 [0]⟩

/-! ## Source: MultiClass likelihood with its RobustMax-only dispatch
(lines 567-632)

Failures raised by the source (NotImplementedError, assertion failures) are
embedded as the error branch of Except. -/

/-- The failures the likelihood layer can signal. -/
inductive GPError where
  | notImplementedError
  | invalidArgument

/-- The inverse link carried by a MultiClass likelihood: either a RobustMax
instance (with its class count and error rate) or any other object. -/
inductive MCInvLink where
  | robustMax (num_classes : ℕ) (epsilon : ℝ)
  | other

/-- A constructed MultiClass likelihood. -/
structure MultiClass where
  num_classes : ℕ
  invlink : MCInvLink

/-- Source MultiClass.__init__ (lines 568-580): a missing invlink defaults to
RobustMax(num_classes) with epsilon 1e-3; a non-RobustMax invlink raises
NotImplementedError at the construction site. -/
noncomputable def MultiClass.init (num_classes : ℕ) (invlink : Option MCInvLink) :
    Except GPError MultiClass :=
  match invlink with
  | none => .ok ⟨num_classes, .robustMax num_classes (1e-3 : ℝ)⟩
  | some (.robustMax K e) => .ok ⟨num_classes, .robustMax K e⟩
  | some .other => .error .notImplementedError

/-- Source RobustMax.prob_is_largest (lines 541-564), for one data row with
true class Y, latent means mu and variances var, over a Gauss-Hermite grid:
the quadrature of the product of guarded Gaussian CDFs over the non-selected
latent functions. -/
noncomputable def RobustMax.prob_is_largest (erf : ℝ → ℝ) (num_classes : ℕ)
    (Y : ℕ) (mu var : List ℝ) (gh : List (ℝ × ℝ)) : ℝ :=
  (gh.map (fun p =>
    (((List.range num_classes).map (fun c =>
      if c = Y then 1 else
        0.5 * (1.0 + erf (((mu.getD Y 0 + p.1 * Real.sqrt (max (1e-10 : ℝ) (2 * var.getD Y 0)))
              - mu.getD c 0)
            / Real.sqrt (max (1e-10 : ℝ) (var.getD c 0)) / Real.sqrt 2.0))
          * (1 - 2 * (1e-4 : ℝ)) + (1e-4 : ℝ))).prod)
      * (p.2 / Real.sqrt Real.pi))).sum

/-- Source MultiClass.logp (lines 582-591), per row: log of 1 - epsilon when
the argmax of F hits the label, log of eps_K1 otherwise; NotImplementedError
for a non-RobustMax link. -/
noncomputable def MultiClass.logp (m : MultiClass) (F : List ℝ) (Y : ℕ) :
    Except GPError ℝ :=
  match m.invlink with
  | .robustMax K e =>
      .ok (Real.log (if argmaxIdx F = Y then 1 - e else RobustMax.eps_K1 e K))
  | .other => .error .notImplementedError

/-- Source MultiClass.variational_expectations (lines 593-601), per row. -/
noncomputable def MultiClass.variational_expectations (erf : ℝ → ℝ)
    (m : MultiClass) (gh : List (ℝ × ℝ)) (Fmu Fvar : List ℝ) (Y : ℕ) :
    Except GPError ℝ :=
  match m.invlink with
  | .robustMax K e =>
      .ok (RobustMax.prob_is_largest erf K Y Fmu Fvar gh * Real.log (1 - e)
        + (1 - RobustMax.prob_is_largest erf K Y Fmu Fvar gh)
          * Real.log (RobustMax.eps_K1 e K))
  | .other => .error .notImplementedError

/-- The non-logged density value of the RobustMax branch of
MultiClass._predict_non_logged_density (line 622). -/
noncomputable def MultiClass.density_robustmax (erf : ℝ → ℝ) (K : ℕ) (e : ℝ)
    (gh : List (ℝ × ℝ)) (Fmu Fvar : List ℝ) (Y : ℕ) : ℝ :=
  RobustMax.prob_is_largest erf K Y Fmu Fvar gh * (1 - e)
    + (1 - RobustMax.prob_is_largest erf K Y Fmu Fvar gh) * RobustMax.eps_K1 e K

/-- Source MultiClass._predict_non_logged_density (lines 617-625). -/
noncomputable def MultiClass.predict_non_logged_density (erf : ℝ → ℝ)
    (m : MultiClass) (gh : List (ℝ × ℝ)) (Fmu Fvar : List ℝ) (Y : ℕ) :
    Except GPError ℝ :=
  match m.invlink with
  | .robustMax K e => .ok (MultiClass.density_robustmax erf K e gh Fmu Fvar Y)
  | .other => .error .notImplementedError

/-- Source MultiClass.predict_density (lines 614-615): the log of the
non-logged density; the NotImplementedError of the inner call propagates. -/
noncomputable def MultiClass.predict_density (erf : ℝ → ℝ) (m : MultiClass)
    (gh : List (ℝ × ℝ)) (Fmu Fvar : List ℝ) (Y : ℕ) : Except GPError ℝ :=
  (MultiClass.predict_non_logged_density erf m gh Fmu Fvar Y).map Real.log

/-- Source MultiClass.predict_mean_and_var (lines 603-612): per possible
output class the non-logged density, variance ps - ps^2. -/
noncomputable def MultiClass.predict_mean_and_var (erf : ℝ → ℝ) (m : MultiClass)
    (gh : List (ℝ × ℝ)) (Fmu Fvar : List ℝ) :
    Except GPError (List ℝ × List ℝ) :=
  match m.invlink with
  | .robustMax K e =>
      .ok ((List.range m.num_classes).map
            (fun i => MultiClass.density_robustmax erf K e gh Fmu Fvar i),
           ((List.range m.num_classes).map
            (fun i => MultiClass.density_robustmax erf K e gh Fmu Fvar i)).map
              (fun p => p - p ^ 2))
  | .other => .error .notImplementedError

/-! ## Source: SoftMax.logp shape guard (lines 875-882) -/

/-- The tf.nn.sparse_softmax_cross_entropy_with_logits primitive on one row:
the negative log-softmax at the label. -/
noncomputable def sparse_softmax_cross_entropy (f : List ℝ) (label : ℕ) : ℝ :=
  -(f.getD label 0 - Real.log ((f.map Real.exp).sum))

/-- Source SoftMax.logp (lines 875-882): asserts that Y has exactly one label
column and that the latent dimensionality of F equals num_classes before the
cross-entropy is computed; rows are modelled as lists, the column counts of
the rectangular tensors as the first-row lengths. -/
noncomputable def SoftMax.logp (num_classes : ℕ) (F : List (List ℝ))
    (Y : List (List ℕ)) : Except GPError (List (List ℝ)) :=
  if (Y.headD []).length = 1 ∧ (F.headD []).length = num_classes then
    .ok ((F.zip Y).map (fun p => [-(sparse_softmax_cross_entropy p.1 (p.2.headD 0))]))
  else .error .invalidArgument

/-! ## Source: SwitchedLikelihood.predict_mean_and_var (lines 686-691) -/

/-- The tf.concat(_, axis=1) primitive over matrices with n rows. -/
def concatAxis1 (n : ℕ) (ms : List (List (List ℝ))) : List (List ℝ) :=
  (List.range n).map (fun i => (ms.map (fun M => M.getD i [])).flatten)

/-- Source SwitchedLikelihood.predict_mean_and_var: every child likelihood is
applied to the whole batch and the mean and variance outputs are concatenated
along the output-dimension axis; no Y or index argument exists. -/
def SwitchedLikelihood.predict_mean_and_var
    (liks : List (List (List ℝ) → List (List ℝ) → List (List ℝ) × List (List ℝ)))
    (Fmu Fvar : List (List ℝ)) : List (List ℝ) × List (List ℝ) :=
  (concatAxis1 Fmu.length (liks.map (fun lik => (lik Fmu Fvar).1)),
   concatAxis1 Fmu.length (liks.map (fun lik => (lik Fmu Fvar).2)))

/-! ## Claim theorems: C6, C8, C9 -/

/-- C6: constructing MultiClass with a non-RobustMax inverse link fails with
NotImplementedError at the construction site, and logp,
variational_expectations, predict_mean_and_var and predict_density on a
MultiClass whose inverse link is not a RobustMax fail with the same error at
the call site. -/
theorem multiclass_non_robustmax_not_implemented (K : ℕ) (erf : ℝ → ℝ)
    (gh : List (ℝ × ℝ)) (F Fmu Fvar : List ℝ) (Y : ℕ) :
    MultiClass.init K (some .other) = .error .notImplementedError
    ∧ (∀ m : MultiClass, m.invlink = .other →
        MultiClass.logp m F Y = .error .notImplementedError
        ∧ MultiClass.variational_expectations erf m gh Fmu Fvar Y
            = .error .notImplementedError
        ∧ MultiClass.predict_mean_and_var erf m gh Fmu Fvar
            = .error .notImplementedError
        ∧ MultiClass.predict_density erf m gh Fmu Fvar Y
            = .error .notImplementedError) := by
  refine ⟨rfl, ?_⟩
  intro m hm
  refine ⟨?_, ?_, ?_, ?_⟩ <;>
    simp [MultiClass.logp, MultiClass.variational_expectations,
      MultiClass.predict_mean_and_var, MultiClass.predict_density,
      MultiClass.predict_non_logged_density, hm, Except.map]

/-- Witness for C6 on a MultiClass with a non-RobustMax link. -/
theorem multiclass_non_robustmax_not_implemented_witness :
    (MultiClass.mk 3 .other).invlink = .other
    ∧ (MultiClass.init 3 (some .other) = .error .notImplementedError
       ∧ MultiClass.logp (MultiClass.mk 3 .other) [1, 2, 3] 0
           = .error .notImplementedError
       ∧ MultiClass.variational_expectations (fun _ => 0) (MultiClass.mk 3 .other)
           [] [0, 0, 0] [1, 1, 1] 0 = .error .notImplementedError
       ∧ MultiClass.predict_mean_and_var (fun _ => 0) (MultiClass.mk 3 .other)
           [] [0, 0, 0] [1, 1, 1] = .error .notImplementedError
       ∧ MultiClass.predict_density (fun _ => 0) (MultiClass.mk 3 .other)
           [] [0, 0, 0] [1, 1, 1] 0 = .error .notImplementedError) :=
  ⟨rfl,
   (multiclass_non_robustmax_not_implemented 3 (fun _ => 0) [] [1, 2, 3]
      [0, 0, 0] [1, 1, 1] 0).1,
   ((multiclass_non_robustmax_not_implemented 3 (fun _ => 0) [] [1, 2, 3]
      [0, 0, 0] [1, 1, 1] 0).2 (MultiClass.mk 3 .other) rfl).1,
   ((multiclass_non_robustmax_not_implemented 3 (fun _ => 0) [] [1, 2, 3]
      [0, 0, 0] [1, 1, 1] 0).2 (MultiClass.mk 3 .other) rfl).2.1,
   ((multiclass_non_robustmax_not_implemented 3 (fun _ => 0) [] [1, 2, 3]
      [0, 0, 0] [1, 1, 1] 0).2 (MultiClass.mk 3 .other) rfl).2.2.1,
   ((multiclass_non_robustmax_not_implemented 3 (fun _ => 0) [] [1, 2, 3]
      [0, 0, 0] [1, 1, 1] 0).2 (MultiClass.mk 3 .other) rfl).2.2.2⟩

/-- C9: SoftMax.logp requires Y to have exactly one label column and F
latent dimension equal to the declared class count; any violation yields the
precondition failure before any cross-entropy computation, and when the
shapes are valid the cross-entropy result is returned. -/
theorem softmax_logp_shape_guard (num_classes : ℕ) (F : List (List ℝ))
    (Y : List (List ℕ)) :
    ((Y.headD []).length ≠ 1 ∨ (F.headD []).length ≠ num_classes →
      SoftMax.logp num_classes F Y = .error .invalidArgument)
    ∧ ((Y.headD []).length = 1 → (F.headD []).length = num_classes →
      SoftMax.logp num_classes F Y
        = .ok ((F.zip Y).map
            (fun p => [-(sparse_softmax_cross_entropy p.1 (p.2.headD 0))]))) := by
  constructor
  · intro h
    unfold SoftMax.logp
    rw [if_neg]
    tauto
  · intro h1 h2
    unfold SoftMax.logp
    rw [if_pos ⟨h1, h2⟩]

/-- Witness for C9: a two-column label matrix is rejected, matching shapes are
accepted. -/
theorem softmax_logp_shape_guard_witness :
    ((([[0, 1]] : List (List ℕ)).headD []).length ≠ 1
      ∨ (([[(1:ℝ), 2, 3]]).headD []).length ≠ 3)
    ∧ SoftMax.logp 3 [[(1:ℝ), 2, 3]] [[0, 1]] = .error .invalidArgument
    ∧ ((([[0]] : List (List ℕ)).headD []).length = 1
        ∧ (([[(1:ℝ), 2, 3]]).headD []).length = 3
        ∧ SoftMax.logp 3 [[(1:ℝ), 2, 3]] [[0]]
            = .ok (([[(1:ℝ), 2, 3]].zip ([[0]] : List (List ℕ))).map
                (fun p => [-(sparse_softmax_cross_entropy p.1 (p.2.headD 0))]))) :=
  ⟨Or.inl (by norm_num),
   (softmax_logp_shape_guard 3 [[(1:ℝ), 2, 3]] [[0, 1]]).1 (Or.inl (by norm_num)),
   by norm_num, by norm_num,
   (softmax_logp_shape_guard 3 [[(1:ℝ), 2, 3]] [[0]]).2 (by norm_num) (by norm_num)⟩

/-- C8: SwitchedLikelihood.predict_mean_and_var does not partition rows (it
takes no index argument at all): row i of each output is the concatenation,
child by child, of row i of that child evaluated on the entire batch — one
column block per child likelihood. -/
theorem switched_predict_mean_and_var_concat
    (liks : List (List (List ℝ) → List (List ℝ) → List (List ℝ) × List (List ℝ)))
    (Fmu Fvar : List (List ℝ)) (i : ℕ) (hi : i < Fmu.length) :
    (SwitchedLikelihood.predict_mean_and_var liks Fmu Fvar).1[i]?
       = some ((liks.map (fun lik => (lik Fmu Fvar).1.getD i [])).flatten)
    ∧ (SwitchedLikelihood.predict_mean_and_var liks Fmu Fvar).2[i]?
       = some ((liks.map (fun lik => (lik Fmu Fvar).2.getD i [])).flatten) := by
  constructor <;>
  · show (concatAxis1 Fmu.length _)[i]? = _
    unfold concatAxis1
    rw [List.getElem?_map, List.getElem?_range hi]
    simp only [Option.map_some, List.map_map]
    rfl

/-- Witness for C8 with two one-column children on a two-row batch. -/
theorem switched_predict_mean_and_var_concat_witness :
    (0 < ([[(1:ℝ)], [2]]).length)
    ∧ (SwitchedLikelihood.predict_mean_and_var
          [fun Fmu _ => (Fmu, Fmu), fun _ Fvar => (Fvar, Fvar)]
          [[(1:ℝ)], [2]] [[(3:ℝ)], [4]]).1[0]?
        = some ((([fun (Fmu : List (List ℝ)) (_ : List (List ℝ)) => (Fmu, Fmu),
                   fun _ Fvar => (Fvar, Fvar)]).map
            (fun lik => (lik [[(1:ℝ)], [2]] [[(3:ℝ)], [4]]).1.getD 0 [])).flatten)
    ∧ (SwitchedLikelihood.predict_mean_and_var
          [fun Fmu _ => (Fmu, Fmu), fun _ Fvar => (Fvar, Fvar)]
          [[(1:ℝ)], [2]] [[(3:ℝ)], [4]]).2[0]?
        = some ((([fun (Fmu : List (List ℝ)) (_ : List (List ℝ)) => (Fmu, Fmu),
                   fun _ Fvar => (Fvar, Fvar)]).map
            (fun lik => (lik [[(1:ℝ)], [2]] [[(3:ℝ)], [4]]).2.getD 0 [])).flatten) :=
  ⟨by norm_num,
   (switched_predict_mean_and_var_concat
      [fun Fmu _ => (Fmu, Fmu), fun _ Fvar => (Fvar, Fvar)]
      [[(1:ℝ)], [2]] [[(3:ℝ)], [4]] 0 (by norm_num)).1,
   (switched_predict_mean_and_var_concat
      [fun Fmu _ => (Fmu, Fmu), fun _ Fvar => (Fvar, Fvar)]
      [[(1:ℝ)], [2]] [[(3:ℝ)], [4]] 0 (by norm_num)).2⟩

/-! ## Source: SwitchedLikelihood partition-and-stitch dispatch (lines 635-684)

The stitching logic is scalar-generic, so the F rows are kept abstract and the
Y rows are lists of rationals, which keeps the integer cast of the index
column computable.  Each child likelihood enters through its batch-level logp
function; all source children apply their logp rowwise, so a composite is
built from per-row functions through batchify. -/

/-- The partition of one tensor (as the list of its rows) selected by index k:
the rows whose partition index equals k, in input order (one output of the
tf.dynamic_partition primitive). -/
def selectK {α : Type} (ind : List ℕ) (xs : List α) (k : ℕ) : List α :=
  ((ind.zip xs).filter (fun p => p.1 == k)).map Prod.snd

/-- The tf.dynamic_partition primitive: n partitions of the rows of xs by the
index vector ind. -/
def dynamicPartition {α : Type} (xs : List α) (ind : List ℕ) (n : ℕ) : List (List α) :=
  (List.range n).map (fun k => selectK ind xs k)

/-- The tf.dynamic_stitch primitive, merged[indices[m][j]] = data[m][j], as a
length-n row list; positions never indexed are empty (None).  The source
always calls it with indices that partition range n, so each position is
written exactly once and first-found equals the written value. -/
def dynamicStitch {γ : Type} (indices : List (List ℕ)) (data : List (List γ))
    (n : ℕ) : List (Option γ) :=
  (List.range n).map (fun i =>
    ((indices.flatten.zip data.flatten).find? (fun p => p.1 == i)).map Prod.snd)

/-- The cast of the last column entry of a Y row to an integer index
(tf.cast(Y[:, -1], tf.int32)); the claims restrict it to entries that hold
natural numbers, where the cast and the floor agree. -/
def toIdx (r : List ℚ) : ℕ := (⌊r.getLastD 0⌋).toNat

/-- Source SwitchedLikelihood._partition_and_stitch (lines 647-675) for the
two-argument methods (logp): extract the index column from Y, strip it,
partition every argument, apply the k-th child function to the k-th
partitions, and stitch the per-partition results back by the partitions of
the original row positions. -/
def SwitchedLikelihood.partition_and_stitch {φ γ : Type}
    (funcs : List (List φ → List (List ℚ) → List γ))
    (F : List φ) (Y : List (List ℚ)) : List (Option γ) :=
  let ind : List ℕ := Y.map toIdx
  let Ystripped : List (List ℚ) := Y.map List.dropLast
  let Fparts := dynamicPartition F ind funcs.length
  let Yparts := dynamicPartition Ystripped ind funcs.length
  let results := (funcs.zip (Fparts.zip Yparts)).map (fun fa => fa.1 fa.2.1 fa.2.2)
  let partitions := dynamicPartition (List.range ind.length) ind funcs.length
  dynamicStitch partitions results ind.length

/-- Source SwitchedLikelihood.logp (lines 677-678). -/
def SwitchedLikelihood.logp {φ γ : Type}
    (funcs : List (List φ → List (List ℚ) → List γ))
    (F : List φ) (Y : List (List ℚ)) : List (Option γ) :=
  SwitchedLikelihood.partition_and_stitch funcs F Y

/-- A child likelihood whose batch logp applies a per-row function rowwise,
as every concrete likelihood of the source does. -/
def batchify {φ γ : Type} (g : φ → List ℚ → γ) :
    List φ → List (List ℚ) → List γ :=
  fun Fs Ys => List.zipWith g Fs Ys

/-! ## Helper lemmas for the partition-and-stitch proof -/

lemma zipWith_eq_map_zip {α β γ : Type} (g : α → β → γ) (as : List α) (bs : List β) :
    List.zipWith g as bs = (as.zip bs).map (fun p => g p.1 p.2) := by
  induction as generalizing bs with
  | nil => simp
  | cons a t ih => cases bs <;> simp [ih]

lemma selectK_zip {α β : Type} (ind : List ℕ) (xs : List α) (ys : List β)
    (h : xs.length = ys.length) (k : ℕ) :
    selectK ind (xs.zip ys) k = (selectK ind xs k).zip (selectK ind ys k) := by
  induction ind generalizing xs ys with
  | nil => simp [selectK]
  | cons j t ih =>
      cases xs with
      | nil => simp [selectK]
      | cons x xs =>
          cases ys with
          | nil => simp at h
          | cons y ys =>
              have h' : xs.length = ys.length := by simpa using h
              by_cases hjk : j = k
              · simpa [selectK, List.filter_cons, hjk] using ih xs ys h'
              · simpa [selectK, List.filter_cons, hjk] using ih xs ys h'

lemma selectK_length {α β : Type} (ind : List ℕ) (xs : List α) (ys : List β)
    (h : xs.length = ys.length) (k : ℕ) :
    (selectK ind xs k).length = (selectK ind ys k).length := by
  induction ind generalizing xs ys with
  | nil => simp [selectK]
  | cons j t ih =>
      cases xs with
      | nil =>
          cases ys with
          | nil => rfl
          | cons y ys => simp at h
      | cons x xs =>
          cases ys with
          | nil => simp at h
          | cons y ys =>
              have h' : xs.length = ys.length := by simpa using h
              by_cases hjk : j = k
              · simpa [selectK, List.filter_cons, hjk] using ih xs ys h'
              · simpa [selectK, List.filter_cons, hjk] using ih xs ys h'

lemma flatten_zip_flatten {α β : Type} (as : List (List α)) (bs : List (List β))
    (h : List.Forall₂ (fun a b => a.length = b.length) as bs) :
    as.flatten.zip bs.flatten = (List.zipWith List.zip as bs).flatten := by
  induction h with
  | nil => simp
  | cons hab htl ih =>
      simp only [List.flatten_cons, List.zipWith_cons_cons]
      rw [List.zip_append hab, ih]

/-- The k-th block of the stitched association: the selected original row
positions paired with the k-th child applied rowwise. -/
def blockOf {φ γ : Type} (gs : List (φ → List ℚ → γ)) (gd : φ → List ℚ → γ)
    (F : List φ) (Y : List (List ℚ)) (k : ℕ) : List (ℕ × γ) :=
  (selectK (Y.map toIdx)
      ((List.range Y.length).zip (F.zip (Y.map List.dropLast))) k).map
    (fun pr => (pr.1, (gs.getD k gd) pr.2.1 pr.2.2))

lemma blockOf_mem {φ γ : Type} (gs : List (φ → List ℚ → γ)) (gd : φ → List ℚ → γ)
    (F : List φ) (Y : List (List ℚ)) (hlen : F.length = Y.length)
    (k : ℕ) {q : ℕ × γ} (hq : q ∈ blockOf gs gd F Y k) :
    ∃ fi yi, F[q.1]? = some fi ∧ Y[q.1]? = some yi ∧ toIdx yi = k
      ∧ q.2 = (gs.getD k gd) fi yi.dropLast := by
  unfold blockOf at hq
  obtain ⟨pr, hpr, rfl⟩ := List.mem_map.mp hq
  unfold selectK at hpr
  obtain ⟨t, ht, rfl⟩ := List.mem_map.mp hpr
  obtain ⟨htz, htk⟩ := List.mem_filter.mp ht
  obtain ⟨m, hm, hmt⟩ := List.mem_iff_getElem.mp htz
  have hmN : m < Y.length := by
    have h2 := hm
    simp only [List.length_zip, List.length_map, List.length_range, hlen] at h2
    omega
  simp only [List.getElem_zip, List.getElem_map, List.getElem_range] at hmt
  subst hmt
  have hmF : m < F.length := by
    rw [hlen]
    exact hmN
  have htk2 : toIdx Y[m] = k := by simpa using htk
  refine ⟨F[m], Y[m], ?_, ?_, htk2, rfl⟩
  · exact List.getElem?_eq_getElem hmF
  · exact List.getElem?_eq_getElem hmN

lemma blockOf_exists {φ γ : Type} (gs : List (φ → List ℚ → γ)) (gd : φ → List ℚ → γ)
    (F : List φ) (Y : List (List ℚ)) (hlen : F.length = Y.length)
    (i : ℕ) (fi : φ) (yi : List ℚ)
    (hF : F[i]? = some fi) (hY : Y[i]? = some yi) :
    (i, (gs.getD (toIdx yi) gd) fi yi.dropLast) ∈ blockOf gs gd F Y (toIdx yi) := by
  obtain ⟨hiY, hYi⟩ := List.getElem?_eq_some.mp hY
  obtain ⟨hiF, hFi⟩ := List.getElem?_eq_some.mp hF
  have hb : i < ((Y.map toIdx).zip
      ((List.range Y.length).zip (F.zip (Y.map List.dropLast)))).length := by
    simp only [List.length_zip, List.length_map, List.length_range, hlen]
    omega
  have hmem2 : ((toIdx yi, (i, (fi, yi.dropLast))) : ℕ × ℕ × φ × List ℚ)
      ∈ (Y.map toIdx).zip ((List.range Y.length).zip (F.zip (Y.map List.dropLast))) := by
    refine List.mem_iff_getElem.mpr ⟨i, hb, ?_⟩
    simp [List.getElem_zip, List.getElem_map, List.getElem_range, hYi, hFi]
  unfold blockOf
  refine List.mem_map.mpr ⟨(i, (fi, yi.dropLast)), ?_, rfl⟩
  unfold selectK
  exact List.mem_map.mpr ⟨(toIdx yi, (i, (fi, yi.dropLast))),
    List.mem_filter.mpr ⟨hmem2, by simp⟩, rfl⟩

lemma switched_assoc_blocks {φ γ : Type} (gs : List (φ → List ℚ → γ))
    (gd : φ → List ℚ → γ) (F : List φ) (Y : List (List ℚ))
    (hlen : F.length = Y.length) :
    (dynamicPartition (List.range Y.length) (Y.map toIdx) gs.length).flatten.zip
      (((gs.map batchify).zip
          ((dynamicPartition F (Y.map toIdx) gs.length).zip
            (dynamicPartition (Y.map List.dropLast) (Y.map toIdx) gs.length))).map
        (fun fa => fa.1 fa.2.1 fa.2.2)).flatten
      = ((List.range gs.length).map (fun k => blockOf gs gd F Y k)).flatten := by
  have hFYs : F.length = (Y.map List.dropLast).length := by simp [hlen]
  have hRN : (List.range Y.length).length
      = ((F.zip (Y.map List.dropLast))).length := by simp [hlen]
  rw [flatten_zip_flatten]
  · congr 1
    apply List.ext_getElem
    · simp [dynamicPartition]
    · intro k h1 h2
      have hk : k < gs.length := by
        simpa [dynamicPartition] using h2
      simp only [dynamicPartition, List.getElem_zipWith, List.getElem_map,
        List.getElem_range, List.getElem_zip, blockOf, batchify]
      rw [zipWith_eq_map_zip, ← selectK_zip (Y.map toIdx) F (Y.map List.dropLast) hFYs k,
        List.zip_map_right,
        ← selectK_zip (Y.map toIdx) (List.range Y.length)
          (F.zip (Y.map List.dropLast)) hRN k]
      have hfun : (Prod.map (id : ℕ → ℕ)
            (fun p : φ × List ℚ => gs[k] p.1 p.2))
          = fun pr : ℕ × φ × List ℚ => (pr.1, (gs.getD k gd) pr.2.1 pr.2.2) := by
        funext pr
        cases pr with
        | mk a b =>
            simp only [Prod.map, id_eq]
            rw [List.getD_eq_getElem gs gd hk]
      rw [hfun]
  · rw [List.forall₂_iff_get]
    constructor
    · simp [dynamicPartition, List.length_zip]
    · intro j h1 h2
      have hj : j < gs.length := by
        simpa [dynamicPartition] using h1
      simp only [dynamicPartition, List.get_eq_getElem, List.getElem_map,
        List.getElem_range, List.getElem_zip, batchify]
      rw [zipWith_eq_map_zip]
      rw [List.length_map]
      rw [← selectK_zip (Y.map toIdx) F (Y.map List.dropLast) hFYs j]
      rw [selectK_length (Y.map toIdx) (List.range Y.length)
        (F.zip (Y.map List.dropLast)) hRN j]

/-! ## Claim theorem: C1 -/

/-- C1: for a SwitchedLikelihood over rowwise child likelihoods and a batch
whose Y rows carry the child index in the last column, logp returns, at every
original row position i, exactly the value of child number toIdx(Y[i]) applied
to row i of F and to Y[i] with the index column stripped: the
partition-process-stitch round trip restores the original order and is
equivalent to running each child on the rows its index selects. -/
theorem switched_logp_partition_stitch {φ γ : Type}
    (gs : List (φ → List ℚ → γ))
    (F : List φ) (Y : List (List ℚ)) (hlen : F.length = Y.length)
    (i : ℕ) (fi : φ) (yi : List ℚ) (g : φ → List ℚ → γ)
    (hF : F[i]? = some fi) (hY : Y[i]? = some yi)
    (hg : gs[toIdx yi]? = some g) :
    (SwitchedLikelihood.logp (gs.map batchify) F Y)[i]?
      = some (some (g fi yi.dropLast)) := by
  obtain ⟨hiY, hYi⟩ := List.getElem?_eq_some.mp hY
  obtain ⟨hkn, hgk⟩ := List.getElem?_eq_some.mp hg
  have hgd : gs.getD (toIdx yi) g = g := by
    rw [List.getD_eq_getElem gs g hkn, hgk]
  simp only [SwitchedLikelihood.logp, SwitchedLikelihood.partition_and_stitch,
    List.length_map, dynamicStitch]
  rw [List.getElem?_map, List.getElem?_range hiY]
  simp only [Option.map_some']
  refine congrArg some ?_
  rw [switched_assoc_blocks gs g F Y hlen]
  have hqmem : ((i, (gs.getD (toIdx yi) g) fi yi.dropLast) : ℕ × γ)
      ∈ ((List.range gs.length).map (fun k => blockOf gs g F Y k)).flatten := by
    refine List.mem_flatten.mpr ⟨blockOf gs g F Y (toIdx yi), ?_, ?_⟩
    · exact List.mem_map_of_mem _ (List.mem_range.mpr hkn)
    · exact blockOf_exists gs g F Y hlen i fi yi hF hY
  have hsome : ((((List.range gs.length).map
      (fun k => blockOf gs g F Y k)).flatten.find? (fun p => p.1 == i)).isSome)
      = true :=
    List.find?_isSome.mpr ⟨_, hqmem, by simp⟩
  obtain ⟨q, hqfind⟩ := Option.isSome_iff_exists.mp hsome
  have hq1 : q.1 = i := by simpa using List.find?_some hqfind
  have hqA := List.mem_of_find?_eq_some hqfind
  obtain ⟨B, hB, hqB⟩ := List.mem_flatten.mp hqA
  obtain ⟨k, hkr, rfl⟩ := List.mem_map.mp hB
  obtain ⟨fi2, yi2, hF2, hY2, hk2, hq2⟩ := blockOf_mem gs g F Y hlen k hqB
  rw [hq1] at hF2 hY2
  rw [hF] at hF2
  rw [hY] at hY2
  have hfi : fi = fi2 := by injection hF2
  have hyi : yi = yi2 := by injection hY2
  subst hfi
  subst hyi
  subst hk2
  rw [hqfind]
  simp only [Option.map_some']
  rw [hq2, hgd]

/-- Witness for C1: a 2-likelihood composite with interleaved indices
[0, 1, 0, 1, 0]; every row of the stitched logp equals the matching child
applied to that row, in original order. -/
theorem switched_logp_partition_stitch_witness :
    (([(1:ℚ), 2, 3, 4, 5]).length
        = ([[(10:ℚ), 0], [20, 1], [30, 0], [40, 1], [50, 0]]).length)
    ∧ ([(1:ℚ), 2, 3, 4, 5][0]? = some 1
        ∧ [[(10:ℚ), 0], [20, 1], [30, 0], [40, 1], [50, 0]][0]? = some [10, 0]
        ∧ [fun (a : ℚ) (r : List ℚ) => a + r.headD 0,
           fun (a : ℚ) (r : List ℚ) => a * r.headD 0][toIdx [(10:ℚ), 0]]?
            = some (fun (a : ℚ) (r : List ℚ) => a + r.headD 0)
        ∧ (SwitchedLikelihood.logp
            ([fun (a : ℚ) (r : List ℚ) => a + r.headD 0,
              fun (a : ℚ) (r : List ℚ) => a * r.headD 0].map batchify)
            [(1:ℚ), 2, 3, 4, 5]
            [[(10:ℚ), 0], [20, 1], [30, 0], [40, 1], [50, 0]])[0]?
          = some (some ((1:ℚ) + 10)))
    ∧ ([(1:ℚ), 2, 3, 4, 5][1]? = some 2
        ∧ [[(10:ℚ), 0], [20, 1], [30, 0], [40, 1], [50, 0]][1]? = some [20, 1]
        ∧ [fun (a : ℚ) (r : List ℚ) => a + r.headD 0,
           fun (a : ℚ) (r : List ℚ) => a * r.headD 0][toIdx [(20:ℚ), 1]]?
            = some (fun (a : ℚ) (r : List ℚ) => a * r.headD 0)
        ∧ (SwitchedLikelihood.logp
            ([fun (a : ℚ) (r : List ℚ) => a + r.headD 0,
              fun (a : ℚ) (r : List ℚ) => a * r.headD 0].map batchify)
            [(1:ℚ), 2, 3, 4, 5]
            [[(10:ℚ), 0], [20, 1], [30, 0], [40, 1], [50, 0]])[1]?
          = some (some ((2:ℚ) * 20)))
    ∧ ((SwitchedLikelihood.logp
            ([fun (a : ℚ) (r : List ℚ) => a + r.headD 0,
              fun (a : ℚ) (r : List ℚ) => a * r.headD 0].map batchify)
            [(1:ℚ), 2, 3, 4, 5]
            [[(10:ℚ), 0], [20, 1], [30, 0], [40, 1], [50, 0]])[2]?
          = some (some ((3:ℚ) + 30)))
    ∧ ((SwitchedLikelihood.logp
            ([fun (a : ℚ) (r : List ℚ) => a + r.headD 0,
              fun (a : ℚ) (r : List ℚ) => a * r.headD 0].map batchify)
            [(1:ℚ), 2, 3, 4, 5]
            [[(10:ℚ), 0], [20, 1], [30, 0], [40, 1], [50, 0]])[3]?
          = some (some ((4:ℚ) * 40)))
    ∧ ((SwitchedLikelihood.logp
            ([fun (a : ℚ) (r : List ℚ) => a + r.headD 0,
              fun (a : ℚ) (r : List ℚ) => a * r.headD 0].map batchify)
            [(1:ℚ), 2, 3, 4, 5]
            [[(10:ℚ), 0], [20, 1], [30, 0], [40, 1], [50, 0]])[4]?
          = some (some ((5:ℚ) + 50))) :=
  ⟨rfl,
   ⟨rfl, rfl, rfl,
    switched_logp_partition_stitch
      [fun (a : ℚ) (r : List ℚ) => a + r.headD 0,
       fun (a : ℚ) (r : List ℚ) => a * r.headD 0]
      [(1:ℚ), 2, 3, 4, 5]
      [[(10:ℚ), 0], [20, 1], [30, 0], [40, 1], [50, 0]] rfl
      0 1 [10, 0] (fun (a : ℚ) (r : List ℚ) => a + r.headD 0) rfl rfl rfl⟩,
   ⟨rfl, rfl, rfl,
    switched_logp_partition_stitch
      [fun (a : ℚ) (r : List ℚ) => a + r.headD 0,
       fun (a : ℚ) (r : List ℚ) => a * r.headD 0]
      [(1:ℚ), 2, 3, 4, 5]
      [[(10:ℚ), 0], [20, 1], [30, 0], [40, 1], [50, 0]] rfl
      1 2 [20, 1] (fun (a : ℚ) (r : List ℚ) => a * r.headD 0) rfl rfl rfl⟩,
   switched_logp_partition_stitch
     [fun (a : ℚ) (r : List ℚ) => a + r.headD 0,
      fun (a : ℚ) (r : List ℚ) => a * r.headD 0]
     [(1:ℚ), 2, 3, 4, 5]
     [[(10:ℚ), 0], [20, 1], [30, 0], [40, 1], [50, 0]] rfl
     2 3 [30, 0] (fun (a : ℚ) (r : List ℚ) => a + r.headD 0) rfl rfl rfl,
   switched_logp_partition_stitch
     [fun (a : ℚ) (r : List ℚ) => a + r.headD 0,
      fun (a : ℚ) (r : List ℚ) => a * r.headD 0]
     [(1:ℚ), 2, 3, 4, 5]
     [[(10:ℚ), 0], [20, 1], [30, 0], [40, 1], [50, 0]] rfl
     3 4 [40, 1] (fun (a : ℚ) (r : List ℚ) => a * r.headD 0) rfl rfl rfl,
   switched_logp_partition_stitch
     [fun (a : ℚ) (r : List ℚ) => a + r.headD 0,
      fun (a : ℚ) (r : List ℚ) => a * r.headD 0]
     [(1:ℚ), 2, 3, 4, 5]
     [[(10:ℚ), 0], [20, 1], [30, 0], [40, 1], [50, 0]] rfl
     4 5 [50, 0] (fun (a : ℚ) (r : List ℚ) => a + r.headD 0) rfl rfl rfl⟩
